import Mathlib

/-!
Verification development for the zleye schema-validation engine and CLI
argument parser (src/src/index.ts).  The TypeScript source is shallowly
embedded: JS runtime values become the inductive `Value`, thrown errors
become `Except Err`, and every validation routine is translated function
by function.  Recursion through the schema tree is bounded by an explicit
fuel parameter (the source recursion terminates because schemas are finite
trees; every theorem below supplies sufficient fuel, and `Err.outOfFuel`
is an artifact of the embedding that no theorem's run ever produces).

Modelling notes, recorded once here:
* JS numbers are modelled as `Int`; the permissive `Number(...)` coercion
  is modelled on integer-valued literals only (claims under study use only
  integer literals).  `Number("") = 0` and boolean coercion are kept.
* Error messages keep the leading phrase of the source message; the
  picocolors styling and the multi-line diff rendering produced by
  `ErrorFormatter` are presentation only and are elided.  Custom
  constraint messages (`_minMessage` etc.) only replace message text and
  are likewise elided.
* The `_regex` string constraint is carried as an abstract predicate.
* `flagValues` in `ArgumentParser` is written but never read in the
  source, and `_unionValue` is tested but never assigned (dead code);
  both are noted where they appear.
-/

namespace Zleye

/-- JS runtime values as they flow through the parser: `undefined`,
strings, (integer-valued) numbers, booleans, arrays and plain objects
(assoc lists preserving insertion order, as JS objects do). -/
inductive Value where
  | undefined
  | str (s : String)
  | num (n : Int)
  | bool (b : Bool)
  | arr (items : List Value)
  | obj (fields : List (String × Value))
deriving Repr

/-- Thrown errors: `cli m` is the engine's own `CLIError` with message `m`;
`other tag` is any other JS exception (e.g. one thrown by a user
transform).  `outOfFuel` is the embedding artifact described above. -/
inductive Err where
  | cli (msg : String)
  | other (tag : String)
  | outOfFuel
deriving Repr, DecidableEq

/-- The fields of `BaseSchemaImpl` that drive `parse` on absent input:
`_isOptional` (undefined ~ `false`) and `_defaultValue` (undefined ~
`none`). -/
structure Meta where
  isOptional : Bool := false
  defaultValue : Option Value := none
deriving Repr

/-- Schema nodes, one constructor per `*SchemaImpl` class.  `transformed`
models the `transform(fn)` clone whose `parse` is the composition
`fn (originalParse value path)`. -/
inductive Schema where
  | str (meta : Meta) (minLength maxLength : Option Nat)
      (regex : Option (String → Bool)) (choices : Option (List String))
  | num (meta : Meta) (minV maxV : Option Int)
      (isInt isPositive isNegative : Bool)
  | bool (meta : Meta)
  | arr (meta : Meta) (item : Schema) (minLength maxLength : Option Nat)
  | objShape (meta : Meta) (shape : List (String × Schema))
  | objAny (meta : Meta) (valueSchema : Schema)
  | union (meta : Meta) (variants : List Schema)
  | transformed (inner : Schema) (fn : Value → Except Err Value)

/-- The `_type` discriminant.  A transform clone keeps the receiver's
`_type` through the prototype chain. -/
def Schema.kindStr : Schema → String
  | .str .. => "string"
  | .num .. => "number"
  | .bool .. => "boolean"
  | .arr .. => "array"
  | .objShape .. | .objAny .. => "object"
  | .union .. => "union"
  | .transformed inner _ => inner.kindStr

/-- `_isOptional` / `_defaultValue` as read on a schema object; a
transform clone reads the receiver's fields through the prototype chain.
Returns the `Meta` of the underlying node. -/
def Schema.metaOf : Schema → Meta
  | .str m .. => m
  | .num m .. => m
  | .bool m => m
  | .arr m .. => m
  | .objShape m _ => m
  | .objAny m _ => m
  | .union m _ => m
  | .transformed inner _ => inner.metaOf

/-- Whether the schema is a `transformed` clone (its `parse` is overridden,
so the base `parse(undefined)` behavior below does not describe it). -/
def Schema.isTransformed : Schema → Bool
  | .transformed .. => true
  | _ => false

/-- `_shape`, read through transform clones. -/
def Schema.shapeOf : Schema → Option (List (String × Schema))
  | .objShape _ s => some s
  | .transformed inner _ => inner.shapeOf
  | _ => none

/-- `_isAnyKeys` / `_valueSchema`, read through transform clones. -/
def Schema.valueSchemaOf : Schema → Option Schema
  | .objAny _ v => some v
  | .transformed inner _ => inner.valueSchemaOf
  | _ => none

/-- `_schemas` of a union, read through transform clones. -/
def Schema.variantsOf : Schema → Option (List Schema)
  | .union _ vs => some vs
  | .transformed inner _ => inner.variantsOf
  | _ => none

/-- JS `typeof` on modelled values (`typeof [] === "object"`,
`typeof undefined === "undefined"`). -/
def jsTypeof : Value → String
  | .undefined => "undefined"
  | .str _ => "string"
  | .num _ => "number"
  | .bool _ => "boolean"
  | .arr _ => "object"
  | .obj _ => "object"

/-- JS `Object.keys`: field names of an object, stringified indices of an
array, `[]` otherwise. -/
def jsKeys : Value → List String
  | .obj fields => fields.map (·.1)
  | .arr items => (List.range items.length).map toString
  | _ => []

/-- JS truthiness on modelled values. -/
def jsTruthy : Value → Bool
  | .undefined => false
  | .str s => s ≠ ""
  | .num n => n ≠ 0
  | .bool b => b
  | .arr _ => true
  | .obj _ => true

/-- First-match lookup in a JS object (assoc list). -/
def objGet (fields : List (String × Value)) (k : String) : Option Value :=
  (fields.find? (·.1 == k)).map (·.2)

/-- JS object property assignment: update in place if the key exists
(keeping its position, as JS objects do), else append. -/
def objSet (fields : List (String × Value)) (k : String) (v : Value) :
    List (String × Value) :=
  match fields with
  | [] => [(k, v)]
  | (k0, v0) :: rest =>
    if k0 = k then (k0, v) :: rest else (k0, v0) :: objSet rest k v

/-! String primitives.  Core `String.splitOn`, `trim`, `contains`,
`startsWith` are defined by well-founded recursion over byte positions,
which blocks definitional evaluation inside proofs; the structural
char-list equivalents below are used instead throughout the model. -/

/-- Splits a character list on a separator character (JS
`String.prototype.split` with a one-character separator). -/
def splitCharsOn (sep : Char) : List Char → List (List Char)
  | [] => [[]]
  | c :: cs =>
    let rest := splitCharsOn sep cs
    if c == sep then [] :: rest
    else
      match rest with
      | [] => [[c]]
      | piece :: more => (c :: piece) :: more

/-- JS `s.split(sep)` for a one-character separator (the source only
splits on `"."`, `"="` and `","`). -/
def jsSplit (s : String) (sep : Char) : List String :=
  (splitCharsOn sep s.data).map String.mk

/-- JS whitespace test (ASCII portion; the claims use ASCII input). -/
def isWs (c : Char) : Bool := c == ' ' || c == '\t' || c == '\n' || c == '\r'

/-- JS `String.prototype.trim`. -/
def jsTrim (s : String) : String :=
  String.mk (((s.data.dropWhile isWs).reverse.dropWhile isWs).reverse)

/-- Character membership (JS `String.prototype.includes` with a
one-character needle). -/
def strHasChar (s : String) (c : Char) : Bool := s.data.contains c

/-- Prefix test on character lists. -/
def isPreL : List Char → List Char → Bool
  | [], _ => true
  | _, [] => false
  | p :: ps, c :: cs => p == c && isPreL ps cs

/-- JS `String.prototype.startsWith`. -/
def strStarts (s pre : String) : Bool := isPreL pre.data s.data

/-- JS `String.prototype.endsWith`. -/
def strEnds (s suf : String) : Bool := isPreL suf.data.reverse s.data.reverse

/-- Substring test (JS `String.prototype.includes`). -/
def strIncl : List Char → List Char → Bool
  | needle, [] => needle.isEmpty
  | needle, c :: cs => isPreL needle (c :: cs) || strIncl needle cs

/-- JS `a.includes(b)` on strings. -/
def strIncludes (s needle : String) : Bool := strIncl needle.data s.data

/-- JS `String.prototype.toLowerCase` (ASCII portion). -/
def strLower (s : String) : String := String.mk (s.data.map Char.toLower)

/-- Replaces the first occurrence of `pat` (JS `String.prototype.replace`
with a string pattern replaces only the first match). -/
def replaceFirstL (pat repl : List Char) : List Char → List Char
  | [] => []
  | c :: cs =>
    if isPreL pat (c :: cs) then repl ++ (c :: cs).drop pat.length
    else c :: replaceFirstL pat repl cs

/-- JS `s.replace(pat, repl)` with a string pattern (first match only). -/
def jsReplaceFirst (s pat repl : String) : String :=
  if strIncludes s pat then String.mk (replaceFirstL pat.data repl.data s.data)
  else s

/-- Parses the digits of a decimal literal. -/
def digitsToInt (cs : List Char) : Option Int :=
  if cs ≠ [] ∧ cs.all Char.isDigit then
    some (Int.ofNat (cs.foldl (fun acc c => acc * 10 + (c.toNat - 48)) 0))
  else none

/-- JS `Number(...)` on a string, restricted to integer-valued decimal
literals (claims use only such inputs): optional sign, digits; the empty
or all-whitespace string coerces to `0` as in JS; anything else is NaN
(`none`). -/
def jsStringToNumber (s : String) : Option Int :=
  let t := jsTrim s
  if t = "" then some 0
  else
    match t.data with
    | '-' :: rest => (digitsToInt rest).map (fun n => -n)
    | '+' :: rest => digitsToInt rest
    | cs => digitsToInt cs

/-- JS `Number(value)` as used by `NumberSchemaImpl.validateValue`;
`none` models NaN.  Arrays and objects are modelled as NaN (no claim
coerces them to numbers). -/
def jsToNumber : Value → Option Int
  | .num n => some n
  | .bool b => some (if b then 1 else 0)
  | .str s => jsStringToNumber s
  | .undefined => none
  | .arr _ => none
  | .obj _ => none

/-- The comparator of `UnionSchemaImpl.validateValue`: number sorts before
string, everything else keeps relative order (JS stable sort). -/
def unionCmp (a b : Schema) : Int :=
  if a.kindStr = "number" ∧ b.kindStr = "string" then -1
  else if a.kindStr = "string" ∧ b.kindStr = "number" then 1
  else 0

/-- Stable insertion used to model the JS stable `Array.prototype.sort`:
inserting an element that came earlier in the original list, it goes
before the first later element it compares `≤ 0` against. -/
def stableIns (cmp : α → α → Int) (x : α) : List α → List α
  | [] => [x]
  | y :: ys => if cmp x y ≤ 0 then x :: y :: ys else y :: stableIns cmp x ys

/-- Stable sort by comparator (models JS `sort`, which is stable). -/
def jsSortBy (cmp : α → α → Int) (l : List α) : List α :=
  l.foldr (stableIns cmp) []

/-- `[...this._schemas].sort(...)` of the union validator. -/
def jsSortSchemas (l : List Schema) : List Schema := jsSortBy unionCmp l

/-- The shared absent-input step of `BaseSchemaImpl.parse`: optional wins
first, then a set default, else a "required" error. -/
def baseUndef (m : Meta) (path : String) : Except Err Value :=
  if m.isOptional then .ok .undefined
  else
    match m.defaultValue with
    | some d => .ok d
    | none => .error (.cli (path ++ " is required"))

/-- `StringSchemaImpl.validateValue`: type check, then choices, then
min/max length, then the regex pattern; the first failing check throws. -/
def validateStringV (minL maxL : Option Nat) (regex : Option (String → Bool))
    (choices : Option (List String)) (v : Value) (path : String) :
    Except Err Value :=
  match v with
  | .str s =>
    if choices.elim false (fun cs => !cs.contains s) then
      .error (.cli (path ++ " must be one of the choices"))
    else if minL.elim false (fun n => s.length < n) then
      .error (.cli (path ++ " is below the minimum length"))
    else if maxL.elim false (fun n => s.length > n) then
      .error (.cli (path ++ " is above the maximum length"))
    else if regex.elim false (fun rx => !rx s) then
      .error (.cli (path ++ " format is invalid"))
    else .ok (.str s)
  | _ => .error (.cli (path ++ " expects a text value"))

/-- `NumberSchemaImpl.validateValue`: `Number(value)` coercion (NaN
throws), then int / positive / negative / min / max in source order.  In
the `Int` model `Number.isInteger` always holds, so the `_isInt` check
never fires (faithful for the integer-literal inputs the claims use). -/
def validateNumberV (minV maxV : Option Int) (_isInt isPositive isNegative : Bool)
    (v : Value) (path : String) : Except Err Value :=
  match jsToNumber v with
  | none => .error (.cli (path ++ " expects a numeric value"))
  | some n =>
    if isPositive && decide (n ≤ 0) then
      .error (.cli (path ++ " must be positive"))
    else if isNegative && decide (0 ≤ n) then
      .error (.cli (path ++ " must be negative"))
    else if minV.elim false (fun m => decide (n < m)) then
      .error (.cli (path ++ " is below the minimum"))
    else if maxV.elim false (fun m => decide (m < n)) then
      .error (.cli (path ++ " is above the maximum"))
    else .ok (.num n)

/-- `BooleanSchemaImpl.validateValue`: the truthy literal set
`{true, "true", "1", 1}` and falsy set `{false, "false", "0", 0}`. -/
def validateBoolV : Value → String → Except Err Value
  | .str "true", _ => .ok (.bool true)
  | .bool true, _ => .ok (.bool true)
  | .str "1", _ => .ok (.bool true)
  | .num 1, _ => .ok (.bool true)
  | .str "false", _ => .ok (.bool false)
  | .bool false, _ => .ok (.bool false)
  | .str "0", _ => .ok (.bool false)
  | .num 0, _ => .ok (.bool false)
  | _, path => .error (.cli (path ++ " expects a boolean value"))

/-- The array coercion of `ArraySchemaImpl.validateValue`: a sequence is
kept as-is; a string containing a comma is split on commas, each piece
trimmed and empty pieces dropped; any other value is wrapped as a
one-element sequence. -/
def jsToArr : Value → List Value
  | .arr items => items
  | .str s =>
    if strHasChar s ',' then
      (((jsSplit s ',').map jsTrim).filter (fun t => !(t == ""))).map .str
    else [.str s]
  | v => [v]

/-- The item loop of `ArraySchemaImpl.validateValue`: successes are
collected in order; a `CLIError` from an item is recorded with its index;
any other exception is caught and ignored (the source `catch` only
handles `CLIError`), silently dropping that item. -/
def arrayItemsRun (pItem : Value → String → Except Err Value) (path : String)
    (items : List Value) : List Value × List (Nat × String) :=
  items.enum.foldl
    (fun acc iv =>
      let ipath := path ++ "[" ++ toString iv.1 ++ "]"
      match pItem iv.2 ipath with
      | .ok r => (acc.1 ++ [r], acc.2)
      | .error (.cli m) => (acc.1, acc.2 ++ [(iv.1, m)])
      | .error _ => acc)
    ([], [])

/-- `ObjectSchemaImpl.getMissingRequiredFields`: shape keys absent from
the input whose schema is neither optional nor defaulted. -/
def missingRequiredFields (s : Schema) (v : Value) : List String :=
  match s.shapeOf with
  | some shape =>
    if jsTypeof v == "object" then
      (shape.filter (fun ks =>
        !(jsKeys v).contains ks.1 && !ks.2.metaOf.isOptional &&
          ks.2.metaOf.defaultValue.isNone)).map (·.1)
    else []
  | none => []

/-- The specificity computation in the `catch` of
`UnionSchemaImpl.validateValue`.  For a failed object variant it scores
`10 ×` matched keys plus `5` for a missing required field, but when the
input object has only invalid keys it throws a fresh `CLIError`
immediately (aborting the remaining variants); a non-object variant whose
kind equals the runtime kind of the value scores `1`. -/
def specOrThrow (t : Schema) (v : Value) (path : String) : Except Err Int :=
  if t.kindStr == "object" && jsTypeof v == "object" then
    let providedKeys := jsKeys v
    let missing := missingRequiredFields t v
    match t.shapeOf with
    | some shape =>
      if providedKeys.isEmpty then .ok 0
      else
        let validKeys := providedKeys.filter (fun k => shape.any (·.1 == k))
        let spec : Int :=
          validKeys.length * 10 + (if missing.isEmpty then 0 else 5)
        let invalidKeys := providedKeys.filter (fun k => !shape.any (·.1 == k))
        if !invalidKeys.isEmpty && validKeys.isEmpty then
          .error (.cli (path ++ " has invalid properties"))
        else .ok spec
    | none => .ok 0
  else if t.kindStr == jsTypeof v then .ok 1
  else .ok 0

/-- Loop state of the union variant loop: a variant succeeded, the
specificity computation threw, or the `CLIError`s collected so far. -/
inductive UnionAcc where
  | success (r : Value)
  | thrown (e : Err)
  | errs (l : List (String × Int))

/-- One iteration of the union variant loop: first success returns;
a `CLIError` is scored and recorded (unless the scoring itself throws);
any other exception is swallowed by the `instanceof CLIError` guard and
the loop continues without recording it. -/
def unionStep (p : Schema → Value → String → Except Err Value) (v : Value)
    (path : String) (acc : UnionAcc) (t : Schema) : UnionAcc :=
  match acc with
  | .success r => .success r
  | .thrown e => .thrown e
  | .errs l =>
    match p t v path with
    | .ok r => .success r
    | .error (.cli m) =>
      match specOrThrow t v path with
      | .error e => .thrown e
      | .ok sp => .errs (l ++ [(m, sp)])
    | .error _ => .errs l

/-- After the union loop: errors sorted by descending specificity; a top
score `> 0` surfaces that error verbatim, otherwise (or with no recorded
errors) a generic "accepts multiple formats" error is raised. -/
def unionFinish (path : String) : UnionAcc → Except Err Value
  | .success r => .ok r
  | .thrown e => .error e
  | .errs l =>
    match (jsSortBy (fun a b => b.2 - a.2) l).head? with
    | some me =>
      if me.2 > 0 then .error (.cli me.1)
      else .error (.cli (path ++ " accepts multiple formats"))
    | none => .error (.cli (path ++ " accepts multiple formats"))

/-- The per-key loop of `ObjectSchemaImpl.validateValue` over `_shape`
(after the unknown-key check): each shape key is parsed against the
provided value or `undefined`, in shape order; the first failure
throws. -/
def shapeRun (p : Schema → Value → String → Except Err Value)
    (fields : List (String × Value)) (path : String)
    (shape : List (String × Schema)) : Except Err (List (String × Value)) :=
  shape.foldl
    (fun acc ks =>
      match acc with
      | .error e => .error e
      | .ok res =>
        match p ks.2 ((objGet fields ks.1).getD .undefined) (path ++ "." ++ ks.1) with
        | .ok v => .ok (res ++ [(ks.1, v)])
        | .error e => .error e)
    (.ok [])

/-- The per-entry loop of the any-keys object: `_valueSchema` applied to
every provided key, first failure throws. -/
def anyKeysRun (pVal : Value → String → Except Err Value)
    (fields : List (String × Value)) (path : String) :
    Except Err (List (String × Value)) :=
  fields.foldl
    (fun acc kv =>
      match acc with
      | .error e => .error e
      | .ok res =>
        match pVal kv.2 (path ++ "." ++ kv.1) with
        | .ok v => .ok (res ++ [(kv.1, v)])
        | .error e => .error e)
    (.ok [])

/-- `Schema.parse(value, path)`, fuel-bounded.  `transformed` composes
`fn` after the receiver's full `parse`; `bool` is the overridden
`BooleanSchemaImpl.parse` whose absent-input fallback is `false`; all
other kinds run `BaseSchemaImpl.parse` (absent-input step, then the
kind's `validateValue`). -/
def parseF : Nat → Schema → Value → String → Except Err Value
  | 0, _, _, _ => .error .outOfFuel
  | fuel + 1, s, v, path =>
    match s, v with
    | .transformed inner fn, v =>
      match parseF fuel inner v path with
      | .ok r => fn r
      | .error e => .error e
    | .bool m, .undefined =>
      if m.isOptional then .ok .undefined
      else
        match m.defaultValue with
        | some d => .ok d
        | none => .ok (.bool false)
    | .bool _, v => validateBoolV v path
    | .str m _ _ _ _, .undefined => baseUndef m path
    | .str _ minL maxL rgx chs, v => validateStringV minL maxL rgx chs v path
    | .num m _ _ _ _ _, .undefined => baseUndef m path
    | .num _ minV maxV isInt isPos isNeg, v =>
      validateNumberV minV maxV isInt isPos isNeg v path
    | .arr m _ _ _, .undefined => baseUndef m path
    | .arr _ item minL maxL, v =>
      let items := jsToArr v
      if minL.elim false (fun n => items.length < n) then
        .error (.cli (path ++ " needs at least the minimum items"))
      else if maxL.elim false (fun n => items.length > n) then
        .error (.cli (path ++ " allows at most the maximum items"))
      else
        match arrayItemsRun (parseF fuel item) path items with
        | (results, []) => .ok (.arr results)
        | (_, _ :: _) => .error (.cli (path ++ " has invalid items"))
    | .objShape m _, .undefined => baseUndef m path
    | .objShape _ shape, v =>
      match v with
      | .obj fields =>
        let unknownKeys :=
          (fields.map (·.1)).filter (fun k => !shape.any (·.1 == k))
        if !unknownKeys.isEmpty then
          .error (.cli (path ++ " received unexpected properties"))
        else
          match shapeRun (parseF fuel) fields path shape with
          | .ok res => .ok (.obj res)
          | .error e => .error e
      | _ => .error (.cli (path ++ " expects property assignments"))
    | .objAny m _, .undefined => baseUndef m path
    | .objAny _ valueSchema, v =>
      match v with
      | .obj fields =>
        match anyKeysRun (parseF fuel valueSchema) fields path with
        | .ok res => .ok (.obj res)
        | .error e => .error e
      | _ => .error (.cli (path ++ " expects property assignments"))
    | .union m _, .undefined => baseUndef m path
    | .union _ variants, v =>
      unionFinish path
        ((jsSortSchemas variants).foldl (unionStep (parseF fuel) v path)
          (.errs []))

/-! Positional schemas (`PositionalSchemaImpl` wraps a base schema and
delegates `parse` to it; `VariadicPositionalSchemaImpl` owns an item
schema, its own `Meta`, and overrides `parse`). -/

/-- A positional or variadic positional schema. -/
inductive PosSchema where
  | positional (name : String) (base : Schema)
  | variadic (name : String) (meta : Meta) (item : Schema)

/-- `_name`. -/
def PosSchema.nameOf : PosSchema → String
  | .positional n _ => n
  | .variadic n _ _ => n

/-- `_isVariadic`. -/
def PosSchema.isVariadic : PosSchema → Bool
  | .positional .. => false
  | .variadic .. => true

/-- The strict item loop of `VariadicPositionalSchemaImpl.validateValue`:
`values.map((v, i) => itemSchema.parse(v, path[i]))` — unlike the array
schema, the first item failure propagates. -/
def variadicRun (pItem : Value → String → Except Err Value) (path : String)
    (items : List Value) : Except Err (List Value) :=
  items.enum.foldl
    (fun acc iv =>
      match acc with
      | .error e => .error e
      | .ok res =>
        let ipath := path ++ "[" ++ toString iv.1 ++ "]"
        match pItem iv.2 ipath with
        | .ok r => .ok (res ++ [r])
        | .error e => .error e)
    (.ok [])

/-- `PositionalSchemaImpl.parse` / `VariadicPositionalSchemaImpl.parse`.
The variadic override returns `_defaultValue || []` on an absent or empty
batch when optional or defaulted, else `[]` (never "required"). -/
def posParseF (fuel : Nat) : PosSchema → Value → String → Except Err Value
  | .positional _ base, v, path => parseF fuel base v path
  | .variadic _ meta item, v, path =>
    match v with
    | .undefined =>
      if meta.isOptional || meta.defaultValue.isSome then
        .ok (match meta.defaultValue with
          | some d => if jsTruthy d then d else .arr []
          | none => .arr [])
      else .ok (.arr [])
    | .arr [] =>
      if meta.isOptional || meta.defaultValue.isSome then
        .ok (match meta.defaultValue with
          | some d => if jsTruthy d then d else .arr []
          | none => .arr [])
      else .ok (.arr [])
    | .arr items => (variadicRun (parseF fuel item) path items).map .arr
    | _ => .error (.cli (path ++ " expects multiple values"))

/-- The per-positional error rewrap of `CLIImpl.parsePositionals`: the
schema-name prefix the inner parse inserted is stripped (first occurrence
only, as JS `replace` does) and the message becomes
`Argument <name>: ...`.  Non-`CLIError` exceptions are also caught and
rewrapped (`error instanceof Error` is true for them). -/
def rephrasePositional (name : String) (e : Err) : Err :=
  match e with
  | .cli m =>
    .cli ("Argument <" ++ name ++ ">: " ++
      jsReplaceFirst (jsReplaceFirst m (name ++ " ") "") (name ++ ": ") "")
  | .other t =>
    .cli ("Argument <" ++ name ++ ">: " ++
      jsReplaceFirst (jsReplaceFirst t (name ++ " ") "") (name ++ ": ") "")
  | .outOfFuel => .outOfFuel

/-- The pre-variadic / no-variadic loop: `schemas[i].parse(args[i],
schemas[i]._name)` for each index, failures rewrapped. -/
def positionalLoop (fuel : Nat) (args : List String) (schemas : List PosSchema) :
    Except Err (List Value) :=
  schemas.enum.foldl
    (fun acc is =>
      match acc with
      | .error e => .error e
      | .ok res =>
        let v := match args[is.1]? with
          | some a => Value.str a
          | none => Value.undefined
        match posParseF fuel is.2 v is.2.nameOf with
        | .ok r => .ok (res ++ [r])
        | .error e => .error (rephrasePositional is.2.nameOf e))
    (.ok [])

/-- `CLIImpl.parsePositionals`: with a variadic schema, each earlier
schema consumes exactly one token by index and the variadic consumes all
remaining tokens as one batch; without one, each schema consumes one
token and surplus tokens raise "Too many arguments"; with no schemas at
all the raw token stream is returned untyped (the deliberate escape
hatch). -/
def parsePositionalsF (fuel : Nat) (args : List String)
    (schemas : List PosSchema) : Except Err (List Value × Option Value) :=
  match schemas.findIdx? PosSchema.isVariadic with
  | some vi =>
    match positionalLoop fuel args (schemas.take vi) with
    | .error e => .error e
    | .ok positionals =>
      match schemas[vi]? with
      | some vs =>
        let variadicArgs := (args.drop vi).map Value.str
        match posParseF fuel vs (.arr variadicArgs) vs.nameOf with
        | .ok rest => .ok (positionals, some rest)
        | .error e => .error (rephrasePositional vs.nameOf e)
      | none => .ok (positionals, none)
  | none =>
    match positionalLoop fuel args schemas with
    | .error e => .error e
    | .ok positionals =>
      if args.length > schemas.length then
        .error (.cli "Too many arguments provided")
      else if schemas.isEmpty then .ok (args.map Value.str, none)
      else .ok (positionals, none)

/-! The argument parser (`ArgumentParser`). -/

/-- `String.prototype.slice(n)` from a character offset. -/
def strDrop (s : String) (n : Nat) : String := String.mk (s.data.drop n)

/-- JS `Array.prototype.join(sep)`. -/
def joinSep (sep : String) : List String → String
  | [] => ""
  | [x] => x
  | x :: xs => x ++ sep ++ joinSep sep xs

/-- `ArgumentParser.looksLikeNegativeNumber`: a dash followed by a
digit. -/
def looksLikeNegativeNumber (arg : String) : Bool :=
  strStarts arg "-" &&
    (match arg.data.drop 1 with
     | c :: _ => c.isDigit
     | [] => false)

/-- `ArgumentParser.isBooleanLiteral`. -/
def isBooleanLiteral (v : String) : Bool :=
  ["true", "false", "0", "1"].contains (strLower v)

/-- `ArgumentParser.parseBooleanValue` (note: unlike the boolean schema's
literal sets, the numbers `1`/`0` are not accepted here). -/
def parseBooleanValue : Value → Option Bool
  | .bool b => some b
  | .str "true" => some true
  | .str "1" => some true
  | .str "false" => some false
  | .str "0" => some false
  | _ => none

/-- Schema lookup in an option map. -/
def lookupSchema (options : List (String × Schema)) (k : String) :
    Option Schema :=
  (options.find? (·.1 == k)).map (·.2)

/-- Tests `x === true` on an optional JS value. -/
def isTrueV : Option Value → Bool
  | some (.bool true) => true
  | _ => false

/-- Property read `dv[key]` on a JS value (undefined unless an object). -/
def dvGet : Value → String → Option Value
  | .obj fields, k => objGet fields k
  | _, _ => none

/-- The flag arity of `ArgumentParser.schemaExpectsValue`. -/
inductive Arity where
  | required
  | boolean
  | union
deriving Repr, DecidableEq

/-- The walk of `schemaExpectsValue` along the dotted path: an any-keys
object (directly or inside a union) breaks out with its value schema; a
fixed-shape object descends or throws "Property not recognized"; a union
descends through its first object variant when the key is found there,
otherwise — like every other kind — continues unchanged. -/
def walkExpects : Schema → List String → Except Err Schema
  | current, [] => .ok current
  | current, key :: rest =>
    if current.kindStr == "object" then
      match current.valueSchemaOf with
      | some vs => .ok vs
      | none =>
        match current.shapeOf with
        | some shape =>
          match shape.find? (·.1 == key) with
          | some ks => walkExpects ks.2 rest
          | none => .error (.cli ("Property " ++ key ++ " is not recognized"))
        | none => .error (.cli ("Property " ++ key ++ " is not recognized"))
    else if current.kindStr == "union" then
      match current.variantsOf with
      | some vars =>
        match vars.find? (fun s => s.kindStr == "object") with
        | some objS =>
          match objS.valueSchemaOf with
          | some vs => .ok vs
          | none =>
            match objS.shapeOf with
            | some shape =>
              match shape.find? (·.1 == key) with
              | some ks => walkExpects ks.2 rest
              | none => walkExpects current rest
            | none => walkExpects current rest
        | none => walkExpects current rest
      | none => walkExpects current rest
    else walkExpects current rest

/-- The final classification of `schemaExpectsValue`: boolean toggles,
unions are "soft" (boolean-only unions toggle, boolean-free unions
require a value), everything else requires a value. -/
def classifyArity (c : Schema) : Arity :=
  if c.kindStr == "boolean" then .boolean
  else if c.kindStr == "union" then
    match c.variantsOf with
    | some vars =>
      let hasBool := vars.any (fun s => s.kindStr == "boolean")
      let hasOther := vars.any (fun s => !(s.kindStr == "boolean"))
      if hasBool && !hasOther then .boolean
      else if !hasBool && hasOther then .required
      else .union
    | none => .union
  else .required

/-- `ArgumentParser.schemaExpectsValue`. -/
def schemaExpectsValue (s : Schema) (nestedKeys : List String) :
    Except Err Arity :=
  (walkExpects s nestedKeys).map classifyArity

/-- `ArgumentParser.getNestedSchema`: strict descent through fixed object
shapes (or the union variant owning the key); undefined on any miss. -/
def getNestedSchema : Option Schema → List String → Option Schema
  | none, _ => none
  | some s, [] => some s
  | some current, key :: rest =>
    if current.kindStr == "object" then
      match current.shapeOf with
      | some shape =>
        match shape.find? (·.1 == key) with
        | some ks => getNestedSchema (some ks.2) rest
        | none => none
      | none => none
    else if current.kindStr == "union" then
      match current.variantsOf with
      | some vars =>
        match vars.find? (fun t =>
            t.kindStr == "object" &&
              t.shapeOf.elim false (fun sh => sh.any (·.1 == key))) with
        | some objS =>
          match objS.shapeOf with
          | some sh =>
            match sh.find? (·.1 == key) with
            | some ks => getNestedSchema (some ks.2) rest
            | none => none
          | none => none
        | none => none
      | none => none
    else none

/-- `ArgumentParser.shouldHandleNoVersion`: `--no-` is honored only for a
boolean whose `_defaultValue === true`, a nested boolean whose parent
object's default object carries `true` for that key, or a union that
either defaults to `true` and contains a boolean variant or contains a
boolean variant defaulting to `true`. -/
def shouldHandleNoVersion (schema? : Option Schema) (parent? : Option Schema)
    (nestedKeys? : Option (List String)) : Bool :=
  match schema? with
  | none => false
  | some schema =>
    (schema.kindStr == "boolean" && isTrueV schema.metaOf.defaultValue) ||
    (match parent?, nestedKeys? with
     | some parent, some [key] =>
       parent.kindStr == "object" &&
       (match parent.metaOf.defaultValue with
        | some dv =>
          jsTruthy dv && schema.kindStr == "boolean" &&
            isTrueV (dvGet dv key)
        | none => false)
     | _, _ => false) ||
    (schema.kindStr == "union" &&
      (match schema.variantsOf with
       | some vars =>
         (isTrueV schema.metaOf.defaultValue &&
           vars.any (fun s => s.kindStr == "boolean")) ||
         (match vars.find? (fun s => s.kindStr == "boolean") with
          | some bs => isTrueV bs.metaOf.defaultValue
          | none => false)
       | none => false))

/-- The descent of `ArgumentParser.setNestedValue` below the first key:
a missing or falsy intermediate is (re)created as `{}`; a truthy
non-object (or array) intermediate throws; at the last key repeated
occurrences accumulate into an array instead of overwriting.  (The
`_unionValue` guard in the source is dead code — the property is never
assigned anywhere — and is omitted; the `schemaPath` bookkeeping is
write-only in the source and likewise omitted.) -/
def snvDescend (fields : List (String × Value)) (keys : List String)
    (value : Value) : Except Err (List (String × Value)) :=
  match keys with
  | [] => .ok fields
  | [lastKey] =>
    match objGet fields lastKey with
    | some (.arr xs) => .ok (objSet fields lastKey (.arr (xs ++ [value])))
    | some old => .ok (objSet fields lastKey (.arr [old, value]))
    | none => .ok (objSet fields lastKey value)
  | k :: rest =>
    let descend := fun (sub : List (String × Value)) =>
      match snvDescend sub rest value with
      | .ok sub2 => .ok (objSet fields k (.obj sub2))
      | .error e => .error e
    match objGet fields k with
    | none => descend []
    | some v =>
      if !jsTruthy v then descend []
      else
        match v with
        | .obj sub => descend sub
        | _ => .error (.cli "Cannot set nested property")

/-- `ArgumentParser.setNestedValue`: splits the dotted key, performs the
mixed-forms pre-check on the top-level key (a union gets the
"Cannot mix value types" error, anything else the generic non-object
error), then descends. -/
def setNestedValue (rawOptions : List (String × Value)) (key : String)
    (value : Value) (options : List (String × Schema)) :
    Except Err (List (String × Value)) :=
  let keys := jsSplit key '.'
  match keys with
  | _ :: _ :: _ =>
    let mainKey := keys.headD ""
    match objGet rawOptions mainKey with
    | some existing =>
      if !(jsTypeof existing == "object") then
        match lookupSchema options mainKey with
        | some sch =>
          if sch.kindStr == "union" then
            .error (.cli ("Cannot mix value types for --" ++ mainKey))
          else .error (.cli "Cannot set property on non-object value")
        | none => .error (.cli "Cannot set property on non-object value")
      else snvDescend rawOptions keys value
    | none => snvDescend rawOptions keys value
  | _ => snvDescend rawOptions keys value

/-- The entry loop of `ArgumentParser.validateObjectInUnion` over a fixed
shape: unknown provided keys throw "is not recognized", known keys are
parsed in the order provided. -/
def vObjShapeEntries (p : Schema → Value → String → Except Err Value)
    (shape : List (String × Schema)) (fields : List (String × Value))
    (path : String) : Except Err (List (String × Value)) :=
  fields.foldl
    (fun acc kv =>
      match acc with
      | .error e => .error e
      | .ok res =>
        match shape.find? (·.1 == kv.1) with
        | none => .error (.cli (path ++ "." ++ kv.1 ++ " is not recognized"))
        | some ks =>
          match p ks.2 kv.2 (path ++ "." ++ kv.1) with
          | .ok v => .ok (res ++ [(kv.1, v)])
          | .error e => .error e)
    (.ok [])

/-- The fill loop of `validateObjectInUnion`: shape keys not provided are
parsed against `undefined` (applying optional/default/required). -/
def vObjShapeFill (p : Schema → Value → String → Except Err Value)
    (shape : List (String × Schema)) (path : String)
    (res : List (String × Value)) : Except Err (List (String × Value)) :=
  shape.foldl
    (fun acc ks =>
      match acc with
      | .error e => .error e
      | .ok r =>
        if r.any (·.1 == ks.1) then .ok r
        else
          match p ks.2 .undefined (path ++ "." ++ ks.1) with
          | .ok v => .ok (r ++ [(ks.1, v)])
          | .error e => .error e)
    (.ok res)

/-- `ArgumentParser.validateObjectInUnion`: any-keys objects parse every
entry through the value schema; fixed shapes run the entry loop then the
fill loop; a schema with neither returns the raw value unchanged.
Callers only pass object values. -/
def validateObjectInUnionF (fuel : Nat) (schema : Schema) (rawValue : Value)
    (path : String) : Except Err Value :=
  match schema.valueSchemaOf with
  | some vs =>
    match rawValue with
    | .obj fields => (anyKeysRun (parseF fuel vs) fields path).map .obj
    | _ => .ok rawValue
  | none =>
    match schema.shapeOf with
    | some shape =>
      match rawValue with
      | .obj fields =>
        match vObjShapeEntries (parseF fuel) shape fields path with
        | .error e => .error e
        | .ok res => (vObjShapeFill (parseF fuel) shape path res).map .obj
      | _ => .ok rawValue
    | none => .ok rawValue

/-- `ArgumentParser.parseOptionWithSchema`: a union first tries its
object variants on an object value (all failures swallowed), then a
boolean-literal value against its boolean variant (failure swallowed),
then falls back to the union's own `parse`; a plain object schema given
an object value routes through `validateObjectInUnion`; a boolean schema
coerces recognized literals first.  (The `_unionValue` mixed-form check
here is dead code — never assigned — and is omitted.) -/
def parseOptionWithSchemaF (fuel : Nat) (key : String) (schema : Schema)
    (rawValue : Value) : Except Err Value :=
  let path := "--" ++ key
  if schema.kindStr == "union" then
    match schema.variantsOf with
    | some vars =>
      let objectAttempt : Option Value :=
        match rawValue with
        | .obj _ =>
          (vars.filter (fun s => s.kindStr == "object")).foldl
            (fun acc os =>
              match acc with
              | some r => some r
              | none =>
                match validateObjectInUnionF fuel os rawValue path with
                | .ok r => some r
                | .error _ => none)
            none
        | _ => none
      match objectAttempt with
      | some r => .ok r
      | none =>
        let boolAttempt : Option Value :=
          match parseBooleanValue rawValue with
          | some b =>
            match vars.find? (fun s => s.kindStr == "boolean") with
            | some bs =>
              match parseF fuel bs (.bool b) path with
              | .ok r => some r
              | .error _ => none
            | none => none
          | none => none
        match boolAttempt with
        | some r => .ok r
        | none => parseF fuel schema rawValue path
    | none => parseF fuel schema rawValue path
  else if schema.kindStr == "object" then
    match rawValue with
    | .obj _ => validateObjectInUnionF fuel schema rawValue path
    | _ => parseF fuel schema rawValue path
  else if schema.kindStr == "boolean" then
    match parseBooleanValue rawValue with
    | some b => parseF fuel schema (.bool b) path
    | none => parseF fuel schema rawValue path
  else parseF fuel schema rawValue path

/-- `_alias` as read on a schema in the functional model.  The alias
metadata lives on schema objects mutated by `alias()` (modelled in the
heap embedding below); the CLI scenarios under study attach no aliases,
so every schema here reads `undefined`. -/
def Schema.aliasOf : Schema → Option String := fun _ => none

/-- The per-`parse`-call working state of `ArgumentParser.parse`:
the raw option tree, the positional tokens collected so far, and the
`flagUsage` map for simple/object conflict detection (`flagValues` is
written but never read in the source and is omitted). -/
structure ScanState where
  rawOptions : List (String × Value) := []
  positionals : List String := []
  flagUsage : List (String × String) := []

/-- Map update for `flagUsage` (JS `Map.set`). -/
def fuSet (fu : List (String × String)) (k v : String) :
    List (String × String) :=
  match fu with
  | [] => [(k, v)]
  | (k0, v0) :: rest =>
    if k0 == k then (k0, v) :: rest else (k0, v0) :: fuSet rest k v

/-- `ArgumentParser.parseFlag`.  `next?` is the following raw token
(`args[index + 1]`); the result is the number of extra tokens consumed
and the updated state.  The `--no-` branch accepts the flag only under
`shouldHandleNoVersion` (directly, or through an object/union parent for
dotted paths) and otherwise throws "cannot be negated"; the main branch
tracks simple/object usage (mixing is an error only for unions), resolves
the arity through the dotted path, and consumes an explicit `=value`, a
following value token, or synthesizes `true`. -/
def parseFlagF (arg : String) (next? : Option String)
    (options : List (String × Schema)) (st : ScanState) :
    Except Err (Nat × ScanState) :=
  if strStarts arg "--no-" then
    let keyPath := (jsSplit (strDrop arg 5) '=').headD ""
    let keys := jsSplit keyPath '.'
    let mainKey := keys.headD ""
    match lookupSchema options mainKey with
    | none => .error (.cli (arg ++ " is not recognized"))
    | some mainSchema =>
      let accepted : Bool :=
        if keys.length > 1 then
          if mainSchema.kindStr == "union" then
            match mainSchema.variantsOf with
            | some vars =>
              vars.any (fun s =>
                s.kindStr == "object" &&
                (getNestedSchema (some s) keys.tail).isSome &&
                shouldHandleNoVersion (getNestedSchema (some s) keys.tail)
                  (some s) (some keys.tail))
            | none => false
          else if mainSchema.kindStr == "object" then
            (getNestedSchema (some mainSchema) keys.tail).isSome &&
            shouldHandleNoVersion (getNestedSchema (some mainSchema) keys.tail)
              (some mainSchema) (some keys.tail)
          else false
        else shouldHandleNoVersion (some mainSchema) none none
      if accepted then
        match setNestedValue st.rawOptions keyPath (.bool false) options with
        | .ok ro => .ok (0, { st with rawOptions := ro })
        | .error e => .error e
      else .error (.cli (arg ++ " cannot be negated"))
  else
    let parts := jsSplit (strDrop arg 2) '='
    let keyPath := parts.headD ""
    let hasExplicitValue := parts.length > 1
    let explicitValue := joinSep "=" parts.tail
    let keys := jsSplit keyPath '.'
    let mainKey := keys.headD ""
    match lookupSchema options mainKey with
    | none => .error (.cli ("--" ++ mainKey ++ " is not recognized"))
    | some schema =>
      let isSimple := keys.length == 1
      let newUsage := if isSimple then "simple" else "object"
      let fuResult : Except Err (List (String × String)) :=
        match (st.flagUsage.find? (·.1 == mainKey)).map (·.2) with
        | some cu =>
          if !(cu == newUsage) then
            if schema.kindStr == "union" then
              .error (.cli ("Cannot mix forms for --" ++ mainKey))
            else .ok (fuSet st.flagUsage mainKey "both")
          else .ok (fuSet st.flagUsage mainKey newUsage)
        | none => .ok (fuSet st.flagUsage mainKey newUsage)
      match fuResult with
      | .error e => .error e
      | .ok fu =>
        match schemaExpectsValue schema keys.tail with
        | .error e => .error e
        | .ok arity =>
          let finish := fun (value : Value) (consumed : Nat) =>
            match setNestedValue st.rawOptions keyPath value options with
            | .ok ro =>
              .ok (consumed, { st with rawOptions := ro, flagUsage := fu })
            | .error e => .error e
          match arity with
          | .boolean =>
            if hasExplicitValue then finish (.str explicitValue) 0
            else
              match next? with
              | some nxt =>
                if !strStarts nxt "-" && isBooleanLiteral nxt then
                  finish (.str nxt) 1
                else finish (.bool true) 0
              | none => finish (.bool true) 0
          | _ =>
            if hasExplicitValue then finish (.str explicitValue) 0
            else
              match next? with
              | some nxt =>
                if !strStarts nxt "-" || looksLikeNegativeNumber nxt then
                  finish (.str nxt) 1
                else if arity == .union then finish (.bool true) 0
                else .error (.cli ("--" ++ keyPath ++ " needs a value"))
              | none =>
                if arity == .union then finish (.bool true) 0
                else .error (.cli ("--" ++ keyPath ++ " needs a value"))

/-- `ArgumentParser.parseAlias`: resolves `-x` through the schemas'
`_alias` fields and writes the top-level raw option directly. -/
def parseAliasF (arg : String) (next? : Option String)
    (options : List (String × Schema)) (st : ScanState) :
    Except Err (Nat × ScanState) :=
  let a := strDrop arg 1
  match options.find? (fun ks => ks.2.aliasOf == some a) with
  | none => .error (.cli (arg ++ " is not recognized"))
  | some ks =>
    match schemaExpectsValue ks.2 [] with
    | .error e => .error e
    | .ok arity =>
      let put : Value → Nat → Except Err (Nat × ScanState) := fun v consumed =>
        .ok (consumed, { st with rawOptions := objSet st.rawOptions ks.1 v })
      match arity with
      | .boolean =>
        match next? with
        | some nxt =>
          if !strStarts nxt "-" && isBooleanLiteral nxt then put (.str nxt) 1
          else put (.bool true) 0
        | none => put (.bool true) 0
      | .required =>
        match next? with
        | some nxt =>
          if !strStarts nxt "-" then put (.str nxt) 1
          else .error (.cli (arg ++ " needs a value"))
        | none => .error (.cli (arg ++ " needs a value"))
      | .union =>
        match next? with
        | some nxt =>
          if !strStarts nxt "-" then put (.str nxt) 1 else put (.bool true) 0
        | none => put (.bool true) 0

/-- The token loop of `ArgumentParser.parse`: `--…` tokens go to
`parseFlag`, other `-…` tokens that are not negative numbers go to
`parseAlias`, everything else is a positional. -/
def scanArgsF (options : List (String × Schema)) :
    List String → ScanState → Except Err ScanState
  | [], st => .ok st
  | arg :: rest, st =>
    if strStarts arg "--" then
      match parseFlagF arg rest.head? options st with
      | .error e => .error e
      | .ok (consumed, st') =>
        if consumed == 1 then
          match rest with
          | [] => .ok st'
          | _ :: rest2 => scanArgsF options rest2 st'
        else scanArgsF options rest st'
    else if strStarts arg "-" && !looksLikeNegativeNumber arg then
      match parseAliasF arg rest.head? options st with
      | .error e => .error e
      | .ok (consumed, st') =>
        if consumed == 1 then
          match rest with
          | [] => .ok st'
          | _ :: rest2 => scanArgsF options rest2 st'
        else scanArgsF options rest st'
    else
      scanArgsF options rest
        { st with positionals := st.positionals ++ [arg] }

/-- Map append for flag occurrences (JS `Map` keyed by main flag). -/
def occAppend (occ : List (String × List String)) (k v : String) :
    List (String × List String) :=
  match occ with
  | [] => [(k, [v])]
  | (k0, vs) :: rest =>
    if k0 == k then (k0, vs ++ [v]) :: rest else (k0, vs) :: occAppend rest k v

/-- `ArgumentParser.collectFlagOccurrences`: every `--…` flag token that
is not a negation, grouped by its top-level key (only keys present in the
option map are tracked). -/
def collectFlagOccurrences (args : List String)
    (options : List (String × Schema)) : List (String × List String) :=
  args.foldl
    (fun occ arg =>
      if strStarts arg "--" && !strStarts arg "--no-" then
        let keyPath := (jsSplit (strDrop arg 2) '=').headD ""
        let mainKey := (jsSplit keyPath '.').headD ""
        if options.any (·.1 == mainKey) then occAppend occ mainKey arg else occ
      else occ)
    []

/-- `ArgumentParser.detectAndReportConflicts`: a union-typed key used
both in simple form and in dotted object form within one invocation is an
error.  The simple/object tests run on the whole raw token (so a dot in
an `=value` part counts), as in the source. -/
def detectConflicts (occ : List (String × List String))
    (options : List (String × Schema)) : Except Err Unit :=
  occ.foldl
    (fun acc entry =>
      match acc with
      | .error e => .error e
      | .ok () =>
        if entry.2.length > 1 then
          match lookupSchema options entry.1 with
          | some schema =>
            if schema.kindStr == "union" then
              let isSimpleF := fun (f : String) =>
                !strIncludes f "." ||
                  (jsSplit f '=').headD "" == "--" ++ entry.1
              let isObjectF := fun (f : String) =>
                strIncludes f "." &&
                  !strEnds ((jsSplit f '=').headD "") entry.1
              if entry.2.any isSimpleF && entry.2.any isObjectF then
                .error (.cli ("Cannot mix different forms of --" ++ entry.1))
              else .ok ()
            else .ok ()
          | none => .ok ()
        else .ok ())
    (.ok ())

/-- `ArgumentParser.parse`: splits off everything after the first `--`
as raw args, detects simple/object conflicts, scans the tokens, appends
the raw args to the positional stream, and resolves every declared option
from the raw tree (or from `undefined` when the flag never appeared).
Returns `(parsed, positionalArgs, rawArgs)`. -/
def argParseF (fuel : Nat) (args : List String)
    (options : List (String × Schema)) :
    Except Err (List (String × Value) × List String × List String) :=
  let ddIdx := args.findIdx? (· == "--")
  let argsMain := match ddIdx with
    | some i => args.take i
    | none => args
  let rawArgs := match ddIdx with
    | some i => args.drop (i + 1)
    | none => []
  match detectConflicts (collectFlagOccurrences argsMain options) options with
  | .error e => .error e
  | .ok () =>
    match scanArgsF options argsMain {} with
    | .error e => .error e
    | .ok st =>
      let positionalArgs := st.positionals ++ rawArgs
      let parsedE : Except Err (List (String × Value)) :=
        options.foldl
          (fun acc ks =>
            match acc with
            | .error e => .error e
            | .ok res =>
              match objGet st.rawOptions ks.1 with
              | some rv =>
                match parseOptionWithSchemaF fuel ks.1 ks.2 rv with
                | .ok v => .ok (res ++ [(ks.1, v)])
                | .error e => .error e
              | none =>
                match parseF fuel ks.2 .undefined ("--" ++ ks.1) with
                | .ok v => .ok (res ++ [(ks.1, v)])
                | .error e => .error e)
          (.ok [])
      match parsedE with
      | .error e => .error e
      | .ok parsed => .ok (parsed, positionalArgs, rawArgs)

/-! CLI orchestrator (`CLIImpl`).  `processExit` terminates the process
in normal operation (the `NO_EXIT` testing escape is not modelled), so an
exit path yields no return value; actions are modelled as non-throwing
callbacks whose invocation is recorded by name (an asynchronous action's
rejection is handled after `parse` has already returned and cannot affect
the return value). -/

/-- A sealed command: name, option map, positional schemas.  The action
callback itself carries no data relevant to dispatch; its invocation is
recorded in the run trace. -/
structure Cmd where
  name : String
  options : List (String × Schema) := []
  positionals : List PosSchema := []

/-- The CLI orchestrator state built by the fluent builder calls. -/
structure CLIState where
  version : Option String := none
  options : List (String × Schema) := []
  positionals : List PosSchema := []
  commands : List Cmd := []

/-- The typed record returned by a successful top-level `parse`. -/
structure ParseOutput where
  options : List (String × Value)
  positionals : List Value
  rest : Option Value

/-- The observable outcome of `CLIImpl.parse`: the first component is
the JS return value (`none` = the process exited inside `parse` — help,
version, or an error handed to `processExit(1)`; `some none` = `parse`
returned `undefined`; `some (some r)` = the typed record); the second
component lists the command actions that were invoked, in order. -/
def cliRunF (fuel : Nat) (c : CLIState) (argv : List String) :
    Option (Option ParseOutput) × List String :=
  -- handleVersion: exits 0 when a version is configured and --version/-v
  -- appears anywhere in the raw argv (including after `--`).
  if c.version.isSome && (argv.contains "--version" || argv.contains "-v") then
    (none, [])
  -- handleHelp: exits 0 when --help/-h appears anywhere.
  else if argv.any (fun a => a == "--help" || a == "-h") then
    (none, [])
  else
    let mainParse := fun (args : List String) =>
      match argParseF fuel args c.options with
      | .error _ => ((none : Option (Option ParseOutput)), ([] : List String))
      | .ok (parsed, posArgs, _) =>
        match parsePositionalsF fuel posArgs c.positionals with
        | .error _ => (none, [])
        | .ok (pos, rest) => (some (some ⟨parsed, pos, rest⟩), [])
    match argv with
    | [] => mainParse argv
    | first :: rest =>
      if strStarts first "-" then mainParse argv
      else
        match c.commands.find? (fun cmd => cmd.name == first) with
        | some cmd =>
          -- executeCommand: parse against the command's schemas; any
          -- failure exits 1 before the action runs; otherwise the action
          -- is invoked and parse returns undefined.
          match argParseF fuel rest cmd.options with
          | .error _ => (none, [])
          | .ok (_, posArgs, _) =>
            match parsePositionalsF fuel posArgs cmd.positionals with
            | .error _ => (none, [])
            | .ok _ => (some none, [cmd.name])
        | none =>
          -- a non-flag first token with registered commands but no match
          -- is the terminal "unknown command" failure.
          if !c.commands.isEmpty then (none, [])
          else mainParse argv

/-! Prototype-chain heap model for the fluent modifiers.  In the source,
`optional()`, `default()` and `transform()` call `Object.create(this)` —
a fresh object whose prototype is the receiver — and set an own property;
`describe()`, `alias()` and `example()` assign an own property on the
receiver itself and return `this`; constraint setters such as
`StringSchemaImpl.min` likewise mutate the receiver.  Nodes live in a
heap (allocation order means a clone's parent always has a smaller
index), and field reads walk the prototype chain. -/

/-- One schema object: its prototype link (`none` for a fresh schema)
and its own properties.  `hasTransform` marks the `parse` override a
`transform()` clone installs. -/
structure SNode where
  parent : Option Nat := none
  desc : Option String := none
  aliasField : Option String := none
  exampleField : Option String := none
  isOptionalField : Option Bool := none
  defaultValueField : Option Value := none
  minLengthField : Option Nat := none
  hasTransform : Bool := false

/-- The object heap: node `i` is `heap[i]`. -/
abbrev Heap := List SNode

/-- Replaces node `i` by `f heap[i]` (property assignment). -/
def heapSet (h : Heap) (i : Nat) (f : SNode → SNode) : Heap :=
  match h, i with
  | [], _ => []
  | n :: rest, 0 => f n :: rest
  | n :: rest, j + 1 => n :: heapSet rest j f

/-- Prototype-chain field lookup from node `i`: the first own property
found walking `parent` links wins (JS property lookup).  `steps` bounds
the walk; `h.length` steps suffice for allocation-ordered heaps. -/
def chainLookup (h : Heap) (f : SNode → Option α) : Nat → Nat → Option α
  | 0, _ => none
  | steps + 1, i =>
    match h[i]? with
    | none => none
    | some n =>
      match f n with
      | some v => some v
      | none =>
        match n.parent with
        | some p => chainLookup h f steps p
        | none => none

/-- `_description` read on node `i`. -/
def getDesc (h : Heap) (i : Nat) : Option String :=
  chainLookup h (·.desc) h.length i

/-- `_minLength` read on node `i`. -/
def getMinLength (h : Heap) (i : Nat) : Option Nat :=
  chainLookup h (·.minLengthField) h.length i

/-- `_isOptional` read on node `i`. -/
def getIsOptional (h : Heap) (i : Nat) : Option Bool :=
  chainLookup h (·.isOptionalField) h.length i

/-- `_defaultValue` read on node `i`. -/
def getDefaultValue (h : Heap) (i : Nat) : Option Value :=
  chainLookup h (·.defaultValueField) h.length i

/-- `z.string()`: a fresh schema node with no own metadata. -/
def newSchemaNode (h : Heap) : Nat × Heap :=
  (h.length, h ++ [{ parent := none }])

/-- `optional()`: `Object.create(this)` plus an own `_isOptional = true`;
returns the clone's index. -/
def optionalOp (h : Heap) (i : Nat) : Nat × Heap :=
  (h.length, h ++ [{ parent := some i, isOptionalField := some true }])

/-- `default(value)`: `Object.create(this)` plus an own `_defaultValue`. -/
def defaultOp (h : Heap) (i : Nat) (v : Value) : Nat × Heap :=
  (h.length, h ++ [{ parent := some i, defaultValueField := some v }])

/-- `transform(fn)`: `Object.create(this)` plus a `parse` override (the
override's behavior is modelled functionally by `Schema.transformed`;
here only the allocation matters). -/
def transformOp (h : Heap) (i : Nat) : Nat × Heap :=
  (h.length, h ++ [{ parent := some i, hasTransform := true }])

/-- `describe(d)`: assigns `this._description = d` and returns `this`. -/
def describeOp (h : Heap) (i : Nat) (d : String) : Nat × Heap :=
  (i, heapSet h i (fun n => { n with desc := some d }))

/-- `alias(a)`: assigns `this._alias = a` and returns `this`. -/
def aliasOp (h : Heap) (i : Nat) (a : String) : Nat × Heap :=
  (i, heapSet h i (fun n => { n with aliasField := some a }))

/-- `example(e)`: assigns `this._example = e` and returns `this`. -/
def exampleOp (h : Heap) (i : Nat) (e : String) : Nat × Heap :=
  (i, heapSet h i (fun n => { n with exampleField := some e }))

/-- `min(n)` on a string schema (a constraint setter): assigns
`this._minLength = n` and returns `this`. -/
def minOp (h : Heap) (i : Nat) (n : Nat) : Nat × Heap :=
  (i, heapSet h i (fun nd => { nd with minLengthField := some n }))

/-! Concrete schemas used by the theorems. -/

/-- `z.string()` with no constraints. -/
def strSchema : Schema := .str {} none none none none

/-- `z.number()` with no constraints. -/
def numSchema : Schema := .num {} none none false false false

/-- A transform whose function throws a non-engine error (JS
`throw new Error("boom")`). -/
def boomTransform : Schema :=
  .transformed strSchema (fun _ => .error (.other "boom"))

/-! Theorems, one per claim of the specification. -/

/-- C1.  Counterexample to the claim as stated: a string schema that is
both optional and carries the default `"d"` has a default set, yet
`parse(undefined)` returns `undefined`, not the default —
`BaseSchemaImpl.parse` tests `_isOptional` before `_defaultValue`, so
optional wins, the opposite of the claimed precedence. -/
theorem C1_optional_beats_default_counterexample :
    (Schema.str { isOptional := true, defaultValue := some (.str "d") }
        none none none none).metaOf.defaultValue = some (.str "d")
    ∧ parseF 16
        (.str { isOptional := true, defaultValue := some (.str "d") }
          none none none none) .undefined "value" = .ok .undefined
    ∧ Value.undefined ≠ Value.str "d" :=
  ⟨rfl, rfl, fun h => Value.noConfusion h⟩

/-- C1, amended.  For every non-transformed schema kind: with a default
set and the schema not optional, `parse(undefined)` returns the default;
with the schema optional, `parse(undefined)` returns `undefined` (even
when a default is also set — optional takes precedence, not the default).
The exception is `VariadicPositionalSchemaImpl.parse`, which returns a
(truthy) default on absent input regardless of optionality. -/
theorem C1_default_on_absent_amended :
    (∀ (fuel : Nat) (s : Schema) (d : Value) (path : String),
      s.isTransformed = false →
      s.metaOf.isOptional = false →
      s.metaOf.defaultValue = some d →
      parseF (fuel + 1) s .undefined path = .ok d)
    ∧ (∀ (fuel : Nat) (s : Schema) (path : String),
      s.isTransformed = false →
      s.metaOf.isOptional = true →
      parseF (fuel + 1) s .undefined path = .ok .undefined)
    ∧ (∀ (fuel : Nat) (name : String) (m : Meta) (item : Schema) (d : Value)
        (path : String),
      m.defaultValue = some d → jsTruthy d = true →
      posParseF fuel (.variadic name m item) .undefined path = .ok d) := by
  refine ⟨?_, ?_, ?_⟩
  · intro fuel s d path hT hOpt hDef
    cases s <;> simp_all [parseF, baseUndef, Schema.metaOf, Schema.isTransformed]
  · intro fuel s path hT hOpt
    cases s <;> simp_all [parseF, baseUndef, Schema.metaOf, Schema.isTransformed]
  · intro fuel name m item d path hDef hTru
    simp [posParseF, hDef, hTru]

/-- C1 witness: the amended theorem applied at a defaulted non-optional
string schema, an optional boolean schema, and a defaulted variadic. -/
theorem C1_default_on_absent_witness :
    parseF 16 (.str { defaultValue := some (.str "d") } none none none none)
        .undefined "value" = .ok (.str "d")
    ∧ parseF 16 (.bool { isOptional := true }) .undefined "value" = .ok .undefined
    ∧ posParseF 16 (.variadic "rest" { defaultValue := some (.arr [.str "z"]) }
        strSchema) .undefined "rest" = .ok (.arr [.str "z"]) :=
  ⟨C1_default_on_absent_amended.1 15 _ (.str "d") "value" rfl rfl rfl,
   C1_default_on_absent_amended.2.1 15 _ "value" rfl rfl,
   C1_default_on_absent_amended.2.2 16 "rest" _ strSchema _ "rest" rfl rfl⟩

/-- C2.  Evaluating the parser at the claim's three scenarios:
`--no-x` on a boolean defaulting to `true` parses to `false`; on a
boolean without a true default the parser throws "cannot be negated"
(diverging from the claim, which — like the repository's own test
"should handle --no- for boolean without default" — expects `false`);
on a string schema it throws the same error, as claimed. -/
theorem C2_negation_gated_on_default_true :
    (argParseF 16 ["--no-x"]
        [("x", .bool { defaultValue := some (.bool true) })]).map (·.1)
      = .ok [("x", .bool false)]
    ∧ argParseF 16 ["--no-x"] [("x", .bool {})]
      = .error (.cli "--no-x cannot be negated")
    ∧ argParseF 16 ["--no-x"] [("x", strSchema)]
      = .error (.cli "--no-x cannot be negated") :=
  ⟨rfl, rfl, rfl⟩

/-- C4.  `z.union(z.number(), z.string())` parses `"42"` to the number
`42`; so does the union written string-first, because the variant sort
puts the number schema before the string schema. -/
theorem C4_union_number_first :
    parseF 16 (.union {} [numSchema, strSchema]) (.str "42") "--x"
      = .ok (.num 42)
    ∧ parseF 16 (.union {} [strSchema, numSchema]) (.str "42") "--x"
      = .ok (.num 42)
    ∧ jsSortSchemas [strSchema, numSchema] = [numSchema, strSchema] :=
  ⟨rfl, rfl, rfl⟩

/-- C5.  For `z.array(z.string())`: parsing `"a,b,c"` equals parsing
`["a","b","c"]`; the end-to-end option `--items a,b,,c` yields
`["a","b","c"]` (empty pieces dropped); and any value that is neither a
sequence nor a comma-containing string is wrapped as a one-element
sequence by the array coercion. -/
theorem C5_array_comma_split :
    parseF 16 (.arr {} strSchema none none) (.str "a,b,c") "--items"
      = parseF 16 (.arr {} strSchema none none)
          (.arr [.str "a", .str "b", .str "c"]) "--items"
    ∧ parseF 16 (.arr {} strSchema none none) (.str "a,b,c") "--items"
      = .ok (.arr [.str "a", .str "b", .str "c"])
    ∧ (argParseF 16 ["--items", "a,b,,c"]
        [("items", .arr {} strSchema none none)]).map (·.1)
      = .ok [("items", .arr [.str "a", .str "b", .str "c"])]
    ∧ (∀ v : Value, (∀ items, v ≠ .arr items) →
        (∀ s, v = .str s → strHasChar s ',' = false) →
        jsToArr v = [v]) := by
  refine ⟨rfl, rfl, rfl, ?_⟩
  intro v hArr hStr
  cases v with
  | arr items => exact absurd rfl (hArr items)
  | str s => simp [jsToArr, hStr s rfl]
  | _ => rfl

/-- C5 witness: the wrapping clause applied at the number `5` and at the
comma-free string `"abc"`. -/
theorem C5_array_comma_split_witness :
    jsToArr (.num 5) = [.num 5] ∧ jsToArr (.str "abc") = [.str "abc"] :=
  ⟨C5_array_comma_split.2.2.2 (.num 5)
      (fun _ h => Value.noConfusion h) (fun _ h => Value.noConfusion h),
   C5_array_comma_split.2.2.2 (.str "abc")
      (fun _ h => Value.noConfusion h)
      (fun _ h => by cases h; rfl)⟩

/-- C6.  Positional schemas `[string, number]` with a trailing variadic
of strings split `["run", "3", "a", "b"]` into positionals
`["run", 3]` and rest `["a", "b"]`; with an extra token the variadic
still consumes the whole remainder. -/
theorem C6_positional_variadic_split :
    parsePositionalsF 16 ["run", "3", "a", "b"]
        [.positional "cmd" strSchema, .positional "count" numSchema,
         .variadic "rest" {} strSchema]
      = .ok ([.str "run", .num 3], some (.arr [.str "a", .str "b"]))
    ∧ parsePositionalsF 16 ["run", "3", "a", "b", "c"]
        [.positional "cmd" strSchema, .positional "count" numSchema,
         .variadic "rest" {} strSchema]
      = .ok ([.str "run", .num 3],
          some (.arr [.str "a", .str "b", .str "c"])) :=
  ⟨rfl, rfl⟩

/-- C8.  A transform that throws a non-engine error propagates it
unchanged out of a direct `parse` — but as the item schema of an array
the same error is swallowed by the item loop's `instanceof CLIError`
guard and the element is silently omitted: the array parse succeeds with
`[]` instead of propagating the error, diverging from the claim. -/
theorem C8_transform_error_swallowed_in_array :
    parseF 16 boomTransform (.str "a") "--value" = .error (.other "boom")
    ∧ parseF 16 (.arr {} boomTransform none none) (.arr [.str "a"]) "--value"
      = .ok (.arr []) :=
  ⟨rfl, rfl⟩

/-- C9.  Quoted path segments are not recognized: the parser splits the
flag path on every dot (second conjunct), so `--loader.".png"=dataurl`
against `z.object(z.string())` builds the nested tree
`{loader: {"\"": {"png\"": "dataurl"}}}` and fails validation instead of
assigning the single key `.png`. -/
theorem C9_quoted_dots_still_split :
    argParseF 16 ["--loader.\".png\"=dataurl"]
        [("loader", .objAny {} strSchema)]
      = .error (.cli "--loader.\" expects a text value")
    ∧ jsSplit "loader.\".png\"" '.' = ["loader", "\"", "png\""] :=
  ⟨rfl, rfl⟩

/-- A union loop that has already succeeded ignores the remaining
variants. -/
theorem unionFold_success_absorb (p : Schema → Value → String → Except Err Value)
    (v : Value) (path : String) (post : List Schema) (r : Value) :
    post.foldl (unionStep p v path) (.success r) = .success r := by
  induction post with
  | nil => rfl
  | cons t ts ih => simpa [unionStep] using ih

/-- Unfolding lemma: on present input, a union parse runs the variant
loop over the sorted variants. -/
theorem parseF_union_not_undef (fuel : Nat) (m : Meta) (variants : List Schema)
    (v : Value) (path : String) (hV : v ≠ .undefined) :
    parseF (fuel + 1) (.union m variants) v path
      = unionFinish path
          ((jsSortSchemas variants).foldl (unionStep (parseF fuel) v path)
            (.errs [])) := by
  cases v
  case undefined => exact absurd rfl hV
  all_goals rfl

/-- If every variant before `s` fails without aborting the loop (a
`CLIError` whose specificity scoring returns, or a swallowed non-engine
error) and `s` parses successfully, the loop ends successful with `s`'s
result, whatever errors were already collected. -/
theorem unionFold_prefix (p : Schema → Value → String → Except Err Value)
    (v : Value) (path : String) (pre : List Schema) (s : Schema)
    (post : List Schema) (r : Value) (l : List (String × Int))
    (hben : ∀ t ∈ pre,
      (∃ msg sp, p t v path = .error (.cli msg) ∧
        specOrThrow t v path = .ok sp) ∨
      (∃ e, p t v path = .error e ∧ ∀ msg, e ≠ .cli msg))
    (hs : p s v path = .ok r) :
    (pre ++ s :: post).foldl (unionStep p v path) (.errs l) = .success r := by
  induction pre generalizing l with
  | nil =>
    simp [unionStep, hs, unionFold_success_absorb]
  | cons t ts ih =>
    have ht := hben t (List.mem_cons_self t ts)
    rcases ht with ⟨msg, sp, hp, hspec⟩ | ⟨e, hp, hne⟩
    · have step : unionStep p v path (.errs l) t = .errs (l ++ [(msg, sp)]) := by
        simp [unionStep, hp, hspec]
      simp only [List.cons_append, List.foldl_cons, step]
      exact ih (l ++ [(msg, sp)]) (fun u hu => hben u (List.mem_cons_of_mem _ hu))
    · have step : unionStep p v path (.errs l) t = .errs l := by
        cases e with
        | cli msg => exact absurd rfl (hne msg)
        | other tag => simp [unionStep, hp]
        | outOfFuel => simp [unionStep, hp]
      simp only [List.cons_append, List.foldl_cons, step]
      exact ih l (fun u hu => hben u (List.mem_cons_of_mem _ hu))

/-- C3.  Counterexample to the claim as stated: in the union
`z.union(z.object({a: string}), z.object(number))` applied to the object
`{b: 1}`, the second variant accepts the value, yet the union parse
fails — the first (object-shape) variant's error handling sees an object
whose keys are all outside its shape and throws immediately without
trying the remaining variants. -/
theorem C3_union_aborts_despite_accepting_variant :
    (Schema.objAny {} numSchema) ∈
        ([.objShape {} [("a", strSchema)], .objAny {} numSchema] : List Schema)
    ∧ parseF 16 (.objAny {} numSchema) (.obj [("b", .num 1)]) "--x"
      = .ok (.obj [("b", .num 1)])
    ∧ parseF 16
        (.union {} [.objShape {} [("a", strSchema)], .objAny {} numSchema])
        (.obj [("b", .num 1)]) "--x"
      = .error (.cli "--x has invalid properties") :=
  ⟨List.Mem.tail _ (List.Mem.head _), rfl, rfl⟩

/-- C3, amended.  The union tries the sorted variants in order and
returns the first success, provided every variant before the first
accepting one fails benignly: with an engine `CLIError` whose
specificity scoring does not itself throw (the scoring throws exactly
when a failed object-shape variant received an object with only invalid
keys), or with a non-engine error (which the loop swallows). -/
theorem C3_union_first_success_amended :
    ∀ (fuel : Nat) (m : Meta) (variants : List Schema) (v : Value)
      (path : String) (pre post : List Schema) (s : Schema) (r : Value),
      v ≠ .undefined →
      jsSortSchemas variants = pre ++ s :: post →
      parseF fuel s v path = .ok r →
      (∀ t ∈ pre,
        (∃ msg sp, parseF fuel t v path = .error (.cli msg) ∧
          specOrThrow t v path = .ok sp) ∨
        (∃ e, parseF fuel t v path = .error e ∧ ∀ msg, e ≠ .cli msg)) →
      parseF (fuel + 1) (.union m variants) v path = .ok r := by
  intro fuel m variants v path pre post s r hV hSort hS hPre
  rw [parseF_union_not_undef fuel m variants v path hV, hSort,
    unionFold_prefix (parseF fuel) v path pre s post r [] hPre hS]
  rfl

/-- C3 witness: the amended theorem applied to
`z.union(z.number(), z.string())` on `"42"` — the number variant is first
after sorting, there are no earlier variants, and the union returns its
result. -/
theorem C3_union_first_success_witness :
    parseF 16 (.union {} [numSchema, strSchema]) (.str "42") "p"
      = .ok (.num 42) :=
  C3_union_first_success_amended 15 {} [numSchema, strSchema] (.str "42") "p"
    [] [strSchema] numSchema (.num 42) (fun h => Value.noConfusion h) rfl rfl
    (fun t ht => absurd ht (List.not_mem_nil t))

/-- C7.  `parse(argv)` returns `undefined` exactly when a command matched
and its action ran: the return value is `some none` (JS `undefined`) iff
the run trace of invoked actions is nonempty, and a nonempty trace means
the first token named a registered command whose action alone was
invoked.  Exit paths (version, help, any failure) return nothing, and the
non-failing non-command path returns the typed record. -/
theorem C7_undefined_iff_action_ran :
    ∀ (fuel : Nat) (c : CLIState) (argv : List String),
      ((cliRunF fuel c argv).1 = some none ↔ (cliRunF fuel c argv).2 ≠ [])
      ∧ ((cliRunF fuel c argv).2 ≠ [] →
        ∃ cmd ∈ c.commands, argv.head? = some cmd.name ∧
          (cliRunF fuel c argv).2 = [cmd.name]) := by
  intro fuel c argv
  unfold cliRunF
  split
  · simp
  · split
    · simp
    · match argv with
      | [] =>
        simp only []
        split <;> simp_all <;> split <;> simp_all
      | first :: rest =>
        simp only []
        split
        · -- first starts with a dash: main parse
          split <;> simp_all <;> split <;> simp_all
        · -- command lookup
          split
          · next cmd hFind =>
            have hMem := List.mem_of_find?_eq_some hFind
            have hName : cmd.name = first := by
              simpa using List.find?_some hFind
            split
            · simp
            · split
              · simp
              · refine ⟨by simp, fun _ => ⟨cmd, hMem, ?_, rfl⟩⟩
                simp [hName]
          · split
            · simp
            · split <;> simp_all <;> split <;> simp_all

/-- C7 witness: a CLI with a single registered command `test`, invoked
with `["test"]` — the return value is `undefined`, the trace records the
action, and the first token is the command's name. -/
theorem C7_undefined_iff_action_ran_witness :
    ((cliRunF 16 { commands := [{ name := "test" }] } ["test"]).1 = some none)
    ∧ ∃ cmd ∈ ({ commands := [{ name := "test" }] } : CLIState).commands,
        (["test"] : List String).head? = some cmd.name ∧
        (cliRunF 16 { commands := [{ name := "test" }] } ["test"]).2
          = [cmd.name] :=
  ⟨((C7_undefined_iff_action_ran 16 { commands := [{ name := "test" }] }
      ["test"]).1).mpr (by decide),
   (C7_undefined_iff_action_ran 16 { commands := [{ name := "test" }] }
      ["test"]).2 (by decide)⟩

/-- `heapSet` preserves the heap's length. -/
theorem heapSet_length (h : Heap) (i : Nat) (f : SNode → SNode) :
    (heapSet h i f).length = h.length := by
  induction h generalizing i with
  | nil => rfl
  | cons n rest ih =>
    cases i with
    | zero => rfl
    | succ j => simp [heapSet, ih]

/-- `heapSet` rewrites the addressed node. -/
theorem heapSet_getElem?_self (h : Heap) (i : Nat) (f : SNode → SNode) :
    (heapSet h i f)[i]? = (h[i]?).map f := by
  induction h generalizing i with
  | nil => cases i <;> rfl
  | cons n rest ih =>
    cases i with
    | zero => simp [heapSet]
    | succ j => simpa [heapSet] using ih j

/-- `heapSet` leaves every other node unchanged. -/
theorem heapSet_getElem?_ne (h : Heap) (i j : Nat) (f : SNode → SNode)
    (hne : j ≠ i) : (heapSet h i f)[j]? = h[j]? := by
  induction h generalizing i j with
  | nil => rfl
  | cons n rest ih =>
    cases i with
    | zero =>
      cases j with
      | zero => exact absurd rfl hne
      | succ j' => simp [heapSet]
    | succ i' =>
      cases j with
      | zero => simp [heapSet]
      | succ j' =>
        simpa [heapSet] using ih i' j' (fun hh => hne (by rw [hh]))

/-- Mutating a node below the append boundary commutes with `++`. -/
theorem heapSet_append_left (h l2 : Heap) (i : Nat) (f : SNode → SNode)
    (hi : i < h.length) : heapSet (h ++ l2) i f = heapSet h i f ++ l2 := by
  induction h generalizing i with
  | nil => cases hi
  | cons n rest ih =>
    cases i with
    | zero => rfl
    | succ j => simp [heapSet, ih j (Nat.lt_of_succ_lt_succ hi)]

/-- The element appended at the end of a heap is found at the old
length. -/
theorem heap_getElem?_concat (l : Heap) (x : SNode) :
    (l ++ [x])[l.length]? = some x := by
  induction l with
  | nil => rfl
  | cons n rest ih => simpa using ih

/-- C10.  Counterexample to the claim as stated: `describe` does not
return a new schema node — on a fresh schema (node `0` of a one-node
heap) it returns the receiver itself, and the receiver's
`_description`, previously unset, now reads `"x"`; the original's fields
are not unchanged. -/
theorem C10_describe_mutates_receiver :
    (describeOp (newSchemaNode []).2 0 "x").1 = 0
    ∧ getDesc (newSchemaNode []).2 0 = none
    ∧ getDesc (describeOp (newSchemaNode []).2 0 "x").2 0 = some "x" :=
  ⟨rfl, rfl, rfl⟩

/-- C10, amended.  `optional()`, `default()` and `transform()` return a
fresh node (the new heap index, distinct from the receiver) and leave
every existing node untouched; `describe()`, `alias()` and `example()`
return the receiver itself, rewriting exactly its own addressed node; and
a clone shares state with its parent through the prototype link: mutating
the parent's description after cloning changes what the clone resolves. -/
theorem C10_modifier_semantics_amended :
    (∀ (h : Heap) (i : Nat) (v : Value),
      i < h.length →
      ((optionalOp h i).1 = h.length ∧ (optionalOp h i).1 ≠ i ∧
        (∀ j, j < h.length → ((optionalOp h i).2)[j]? = h[j]?)) ∧
      ((defaultOp h i v).1 = h.length ∧
        (∀ j, j < h.length → ((defaultOp h i v).2)[j]? = h[j]?)) ∧
      ((transformOp h i).1 = h.length ∧
        (∀ j, j < h.length → ((transformOp h i).2)[j]? = h[j]?)))
    ∧ (∀ (h : Heap) (i : Nat) (d a e : String),
      (describeOp h i d).1 = i ∧ (aliasOp h i a).1 = i ∧
      (exampleOp h i e).1 = i ∧
      ((describeOp h i d).2)[i]?
        = (h[i]?).map (fun n => { n with desc := some d }) ∧
      (∀ j, j ≠ i → ((describeOp h i d).2)[j]? = h[j]?))
    ∧ (∀ (h : Heap) (i : Nat) (d : String),
      i < h.length →
      getDesc (describeOp (optionalOp h i).2 i d).2 (optionalOp h i).1
        = some d) := by
  refine ⟨?_, ?_, ?_⟩
  · intro h i v hi
    refine ⟨⟨rfl, fun hh => absurd hh.symm (Nat.ne_of_lt hi), ?_⟩,
      ⟨rfl, ?_⟩, ⟨rfl, ?_⟩⟩ <;>
    · intro j hj
      exact List.getElem?_append_left hj
  · intro h i d a e
    exact ⟨rfl, rfl, rfl, heapSet_getElem?_self h i _,
      fun j hj => heapSet_getElem?_ne h i j _ hj⟩
  · intro h i d hi
    have hfl : (heapSet h i (fun nd => { nd with desc := some d })).length
        = h.length := heapSet_length h i _
    obtain ⟨n, hn⟩ : ∃ n, h[i]? = some n := ⟨h[i], List.getElem?_eq_getElem hi⟩
    obtain ⟨k, hk⟩ : ∃ k, h.length = k + 1 := ⟨h.length - 1, by omega⟩
    simp only [optionalOp, describeOp, getDesc]
    rw [heapSet_append_left _ _ _ _ hi]
    have hcat : (heapSet h i (fun nd => { nd with desc := some d }) ++
        [{ parent := some i, isOptionalField := some true }] : Heap)[h.length]?
        = some { parent := some i, isOptionalField := some true } := by
      conv in _[h.length]? => rw [← hfl]
      exact heap_getElem?_concat _ _
    have hat : (heapSet h i (fun nd => { nd with desc := some d }) ++
        [{ parent := some i, isOptionalField := some true }] : Heap)[i]?
        = some { n with desc := some d } := by
      rw [List.getElem?_append_left (by rw [hfl]; exact hi),
        heapSet_getElem?_self, hn]
      rfl
    simp [List.length_append, hfl, hk, chainLookup, hcat, hat]

/-- C10 witness: the amended theorem applied to a one-node heap —
`optional()` returns the fresh index `1`, `describe` returns the receiver
`0`, and after cloning node `0` and then describing the parent, the clone
resolves the parent's new description. -/
theorem C10_modifier_semantics_witness :
    (optionalOp [{ parent := none }] 0).1 = 1
    ∧ (describeOp [{ parent := none }] 0 "x").1 = 0
    ∧ getDesc (describeOp (optionalOp [{ parent := none }] 0).2 0 "x").2
        (optionalOp [{ parent := none }] 0).1 = some "x" :=
  ⟨((C10_modifier_semantics_amended.1 [{ parent := none }] 0 (.bool true)
      (by decide)).1).1,
   (C10_modifier_semantics_amended.2.1 [{ parent := none }] 0 "x" "a" "e").1,
   C10_modifier_semantics_amended.2.2 [{ parent := none }] 0 "x" (by decide)⟩

end Zleye
